import Mathlib

/-!
Verification of the Privacy Cash Rust SDK core against its specification.

Shallow embedding of the relevant parts of the repository:
- `src/src/constants.rs` (field modulus, platform fee constants),
- `src/src/prover.rs` (proof / public-signal codec),
- `src/src/poseidon/mod.rs` (Poseidon sponge),
- `src/src/keypair.rs` (ZkKeypair Poseidon wrapper),
- `src/src/withdraw.rs`, `src/src/withdraw_spl.rs` (withdrawal assembly),
- `src/src/deposit.rs` (deposit assembly),
- `src/src/client.rs` (client withdraw flow with platform fee).

Rust `u64` / `i64` values are embedded as `Nat` / `Int` with explicit wrapping
where it matters; `BigUint` values are embedded as `Nat` (with Rust's panicking
subtraction modelled by an explicit underflow error where reachable); fallible
code returns `Except`.
-/

/-- BN254 scalar field modulus, from `FIELD_SIZE` in `src/src/constants.rs`. -/
def FIELD_SIZE : Nat :=
  21888242871839275222246405745257275088548364400416034343698204186575808495617

/-- Error type mirroring `PrivacyCashError` in `src/src/error.rs` (only the
variants reachable from the embedded code), plus one distinguished variant
modelling a Rust `BigUint` subtraction panic on underflow. -/
inductive PrivacyCashError where
  | invalidKeypair (msg : String)
  | insufficientBalance (hav need : Nat)
  | noUtxosAvailable
  | withdrawalAmountTooLow (minimum : Nat)
  | tokenNotSupported (msg : String)
  | serializationError (msg : String)
  | bigUintUnderflowPanic
  deriving DecidableEq, Repr

/-- Modelled from the spec: `calculate_public_amount` lives in `src/utils.rs`,
which is not present under `src/` (only its call sites in `withdraw.rs`,
`withdraw_spl.rs` and `deposit.rs` are). The spec defines it as
`(extAmount - fee) mod P`, where a negative `extAmount - fee` is reduced into
`[0, P)` by adding `P`. `Int.emod` with a positive modulus yields exactly that
representative. -/
def calculate_public_amount (extAmount : Int) (fee : Nat) : Nat :=
  ((extAmount - (fee : Int)) % (FIELD_SIZE : Int)).toNat

/-- Modelled from the spec: `biguint_to_bytes_le` lives in `src/utils.rs`, which
is not present under `src/`. The spec's codec (section 4.7) serializes a big
integer as a little-endian 32-byte array; byte `i` is `n / 256 ^ i % 256`. -/
def biguint_to_bytes_le (n : Nat) : List Nat :=
  (List.range 32).map (fun i => n / 256 ^ i % 256)

/-- Digit value of a character under num-bigint's normalization: decimal
digits are their value, letters a-z and A-Z are 10 through 35, anything else
is invalid (a digit at or above the radix is rejected by the caller). -/
def charDigitVal (c : Char) : Option Nat :=
  if 48 ≤ c.toNat ∧ c.toNat ≤ 57 then some (c.toNat - 48)
  else if 97 ≤ c.toNat ∧ c.toNat ≤ 122 then some (c.toNat - 87)
  else if 65 ≤ c.toNat ∧ c.toNat ≤ 90 then some (c.toNat - 55)
  else none

/-- The sign handling of `num_bigint`'s `from_str_radix`: a single leading
plus sign is stripped, but a doubled plus is left in place (and then fails as
an invalid digit). -/
def stripLeadingPlus (cs : List Char) : List Char :=
  match cs with
  | '+' :: rest =>
    match rest with
    | '+' :: _ => cs
    | _ => rest
  | _ => cs

/-- Embedding of `num_bigint::BigUint::parse_bytes(s, radix)` (which defers to
`from_str_radix`), as used by `src/src/prover.rs`: after stripping a single
leading plus sign the string must be nonempty and must not lead with an
underscore; each remaining character is either an underscore separator
(skipped) or a digit below the radix, and any other character fails the
parse. -/
def parse_bytes_radix (radix : Nat) (s : String) : Option Nat :=
  match stripLeadingPlus s.data with
  | [] => none
  | c :: rest =>
    if c = '_' then none
    else
      (c :: rest).foldl
        (fun acc ch =>
          match acc with
          | none => none
          | some v =>
            if ch = '_' then some v
            else
              match charDigitVal ch with
              | some d => if d < radix then some (v * radix + d) else none
              | none => none)
        (some 0)

/-- Embedding of `num_bigint::BigUint::parse_bytes(s, 10)` as used by
`src/src/prover.rs`. -/
def parse_bytes_10 (s : String) : Option Nat := parse_bytes_radix 10 s

/-- Embedding of `num_bigint::BigUint::parse_bytes(s, 16)` as used by the hex
fallback in `parse_public_signals_to_bytes` in `src/src/prover.rs`. -/
def parse_bytes_16 (s : String) : Option Nat := parse_bytes_radix 16 s

/-- Groth16 proof as emitted by the prover, from `Proof` in
`src/src/prover.rs`: decimal-string coordinates, with `pi_b` a point on the
quadratic extension given as sub-coordinate pairs in `(c1, c0)` order. -/
structure Groth16Proof where
  pi_a : List String
  pi_b : List (List String)
  pi_c : List String
  deriving DecidableEq, Repr

/-- Byte form of a proof, from `ProofBytes` in `src/src/prover.rs`. -/
structure ProofBytes where
  proof_a : List Nat
  proof_b : List Nat
  proof_c : List Nat
  deriving DecidableEq, Repr

/-- Embedding of the closure `parse_coord_be` inside `parse_proof_to_bytes` in
`src/src/prover.rs`: parse a decimal string, serialize to a little-endian
32-byte array, and reverse to big-endian. -/
def parse_coord_be (s : String) : Except PrivacyCashError (List Nat) :=
  match parse_bytes_10 s with
  | some n => .ok (biguint_to_bytes_le n).reverse
  | none => .error (.serializationError "Invalid coordinate")

/-- Embedding of the loop `for coord in &proof.pi_b[i]` in
`parse_proof_to_bytes` in `src/src/prover.rs`: convert each sub-coordinate
with `parse_coord_be` in the given order and append the byte chunks,
short-circuiting on the first failure exactly as the Rust `?` does. -/
def parse_coords_concat (coords : List String) : Except PrivacyCashError (List Nat) :=
  match coords with
  | [] => .ok []
  | s :: rest =>
    match parse_coord_be s with
    | .error e => .error e
    | .ok b =>
      match parse_coords_concat rest with
      | .error e => .error e
      | .ok bs => .ok (b ++ bs)

/-- Embedding of `parse_proof_to_bytes` in `src/src/prover.rs`. The Rust code
indexes `pi_a[0]`, `pi_a[1]`, `pi_b[0]`, `pi_b[1]`, `pi_c[0]`, `pi_c[1]`
directly (panicking on a malformed shape); missing entries are modelled with
`getD` defaults, and every theorem below pins the well-formed shape. Each
sub-coordinate list of `pi_b` is traversed in the order given by the prover. -/
def parse_proof_to_bytes (proof : Groth16Proof) : Except PrivacyCashError ProofBytes :=
  match parse_coord_be (proof.pi_a.getD 0 "") with
  | .error e => .error e
  | .ok a0 =>
    match parse_coord_be (proof.pi_a.getD 1 "") with
    | .error e => .error e
    | .ok a1 =>
      match parse_coords_concat (proof.pi_b.getD 0 []) with
      | .error e => .error e
      | .ok bx =>
        match parse_coords_concat (proof.pi_b.getD 1 []) with
        | .error e => .error e
        | .ok by_ =>
          match parse_coord_be (proof.pi_c.getD 0 "") with
          | .error e => .error e
          | .ok c0 =>
            match parse_coord_be (proof.pi_c.getD 1 "") with
            | .error e => .error e
            | .ok c1 =>
              .ok { proof_a := a0 ++ a1
                  , proof_b := bx ++ by_
                  , proof_c := c0 ++ c1 }

/-- Embedding of the per-signal conversion inside
`parse_public_signals_to_bytes` in `src/src/prover.rs`: decimal parse with a
hexadecimal fallback, then little-endian 32-byte serialization reversed to
big-endian; failure of both parses is a codec error carrying the signal. -/
def parse_signal (s : String) : Except PrivacyCashError (List Nat) :=
  match parse_bytes_10 s with
  | some n => .ok (biguint_to_bytes_le n).reverse
  | none =>
    match parse_bytes_16 s with
    | some n => .ok (biguint_to_bytes_le n).reverse
    | none => .error (.serializationError s)

/-- Embedding of `parse_public_signals_to_bytes` in `src/src/prover.rs`:
the per-signal conversion collected over the sequence, short-circuiting at the
first failure exactly as Rust's `collect` over `Result` does. -/
def parse_public_signals_to_bytes (signals : List String) :
    Except PrivacyCashError (List (List Nat)) :=
  match signals with
  | [] => .ok []
  | s :: rest =>
    match parse_signal s with
    | .error e => .error e
    | .ok b =>
      match parse_public_signals_to_bytes rest with
      | .error e => .error e
      | .ok bs => .ok (b :: bs)

/-- Spec-side description of the section 4.7 coordinate conversion, written
from the spec's words for comparison with the code path: parse decimal string,
take the little-endian 32-byte array, reverse to big-endian. -/
def spec_decimal_to_be_bytes (n : Nat) : List Nat :=
  (biguint_to_bytes_le n).reverse

/-- BN254 scalar field, the coefficient field `ark_bn254::Fr` used by
`src/src/poseidon/mod.rs` and `src/src/keypair.rs`. -/
abbrev Fr : Type := ZMod FIELD_SIZE

/-- Error type mirroring `PoseidonError` in `src/src/poseidon/mod.rs` (only the
variants reachable from the embedded code). -/
inductive PoseidonError where
  | invalidNumberOfInputs (inputs maxLimit width : Nat)
  | invalidWidthCircom (width maxLimit : Nat)
  deriving DecidableEq, Repr

/-- Parameter record mirroring `PoseidonParameters` in
`src/src/poseidon/mod.rs`. `fullRounds` and `innerRounds` are the full and
partial round counts; `alpha` is the S-box exponent. -/
structure PoseidonParameters where
  ark : List Fr
  mds : List (List Fr)
  fullRounds : Nat
  innerRounds : Nat
  width : Nat
  alpha : Nat

/-- Stateful sponge mirroring `Poseidon<F>` in `src/src/poseidon/mod.rs`. -/
structure Poseidon where
  params : PoseidonParameters
  domain_tag : Fr
  state : List Fr

/-- Embedding of `Poseidon::apply_ark`: add the round constants for `round` to
the state elementwise. The Rust indexing `ark[round * width + i]` panics out of
bounds; the modelled parameter sets are always large enough, and a default of 0
stands in for the unreachable out-of-bounds case. -/
def Poseidon.apply_ark (p : Poseidon) (round : Nat) : Poseidon :=
  { p with
    state := p.state.enum.map
      (fun ia => ia.2 + p.params.ark.getD (round * p.params.width + ia.1) 0) }

/-- Embedding of `Poseidon::apply_sbox_full`: raise every state element to the
power `alpha`. -/
def Poseidon.apply_sbox_full (p : Poseidon) : Poseidon :=
  { p with state := p.state.map (fun a => a ^ p.params.alpha) }

/-- Embedding of the partial S-box application in `src/src/poseidon/mod.rs`:
raise only the first state element to the power `alpha` (the state is never
empty at the call site). -/
def Poseidon.apply_sbox_inner (p : Poseidon) : Poseidon :=
  { p with
    state :=
      match p.state with
      | [] => []
      | a :: rest => a ^ p.params.alpha :: rest }

/-- Embedding of `Poseidon::apply_mds`: replace the state by its image under
the MDS matrix, `state[i] := sum over j of state[j] * mds[i][j]`. -/
def Poseidon.apply_mds (p : Poseidon) : Poseidon :=
  { p with
    state := p.state.enum.map
      (fun i_ =>
        p.state.enum.foldl
          (fun acc ja => acc + ja.2 * ((p.params.mds.getD i_.1 []).getD ja.1 0))
          0) }

/-- A full round of the sponge loop in `Poseidon::hash`: round constants,
S-box on the whole state, MDS. -/
def Poseidon.fullRound (p : Poseidon) (round : Nat) : Poseidon :=
  ((p.apply_ark round).apply_sbox_full).apply_mds

/-- An inner (partial) round of the sponge loop in `Poseidon::hash`: round
constants, S-box on the first state element only, MDS. -/
def Poseidon.innerRound (p : Poseidon) (round : Nat) : Poseidon :=
  ((p.apply_ark round).apply_sbox_inner).apply_mds

/-- Embedding of `Poseidon::hash` in `src/src/poseidon/mod.rs`. The Rust method
takes `&mut self`; the embedding returns the result together with the updated
hasher. On a wrong input count it errors before touching the state; otherwise
it pushes the domain tag and the inputs, runs `fullRounds / 2` full rounds,
`innerRounds` partial rounds, the remaining full rounds, reads `state[0]` and
clears the state. -/
def Poseidon.hash (p : Poseidon) (inputs : List Fr) :
    Except PoseidonError Fr × Poseidon :=
  if inputs.length ≠ p.params.width - 1 then
    (.error (.invalidNumberOfInputs inputs.length (p.params.width - 1) p.params.width), p)
  else
    let p1 : Poseidon := { p with state := p.state ++ p.domain_tag :: inputs }
    let half := p.params.fullRounds / 2
    let p2 := (List.range half).foldl (fun q r => q.fullRound r) p1
    let p3 := (List.range p.params.innerRounds).foldl
      (fun q k => q.innerRound (half + k)) p2
    let p4 := (List.range (p.params.fullRounds + p.params.innerRounds - (half + p.params.innerRounds))).foldl
      (fun q k => q.fullRound (half + p.params.innerRounds + k)) p3
    (.ok (p4.state.headD 0), { p4 with state := [] })

/-- Maximum circom sponge width, `MAX_X5_LEN` in `src/src/poseidon/mod.rs`. -/
def MAX_X5_LEN : Nat := 13

/-- Modelled from the spec: the circom BN254 x5 parameter table
(`src/src/poseidon/parameters`, declared by `pub mod parameters` in
`src/src/poseidon/mod.rs`) is not present under `src/`. The spec (section 4.1)
fixes its structure: round constants, MDS matrix, S-box exponent and full /
partial round counts are width-specific circuit-specified constants, with
state width = inputs + 1 and widths 2 through 13 supported. The concrete
constant values are an external circuit contract not reproduced by the spec;
they are modelled here by definite placeholder field elements of the correct
shape (S-box exponent 5, 8 full rounds, a width-indexed partial round count,
`ark` of length `(full + partial) * width`, `mds` of size `width * width`). -/
def get_poseidon_parameters (width : Nat) : Except PoseidonError PoseidonParameters :=
  if 2 ≤ width ∧ width ≤ MAX_X5_LEN then
    let inner := 56 + width
    .ok { ark := (List.range ((8 + inner) * width)).map (fun i => ((i + 1 : Nat) : Fr))
        , mds := (List.range width).map
            (fun i => (List.range width).map (fun j => ((i * width + j + 2 : Nat) : Fr)))
        , fullRounds := 8
        , innerRounds := inner
        , width := width
        , alpha := 5 }
  else .error (.invalidWidthCircom width MAX_X5_LEN)

/-- Embedding of `Poseidon::with_domain_tag_circom` in
`src/src/poseidon/mod.rs`: width is `nr_inputs + 1`, widths above `MAX_X5_LEN`
are rejected, and the hasher starts with an empty state. -/
def Poseidon.with_domain_tag_circom (nr_inputs : Nat) (domain_tag : Fr) :
    Except PoseidonError Poseidon :=
  let width := nr_inputs + 1
  if width > MAX_X5_LEN then
    .error (.invalidWidthCircom width MAX_X5_LEN)
  else
    match get_poseidon_parameters width with
    | .error e => .error e
    | .ok params => .ok { params := params, domain_tag := domain_tag, state := [] }

/-- Embedding of `Poseidon::new_circom` in `src/src/poseidon/mod.rs`. -/
def Poseidon.new_circom (nr_inputs : Nat) : Except PoseidonError Poseidon :=
  Poseidon.with_domain_tag_circom nr_inputs 0

/-- Embedding of the `BigUint` to `Fr` conversion inside
`ZkKeypair::poseidon_hash` in `src/src/keypair.rs`: the big-endian bytes of the
input are placed right-aligned into a 32-byte buffer (keeping only the 32 most
significant bytes of an oversized input) and read back mod the field order. -/
def fr_from_biguint (n : Nat) : Fr :=
  let len := Nat.log 256 n + 1
  ((if len ≤ 32 then n else n / 256 ^ (len - 32) : Nat) : Fr)

/-- Embedding of `ZkKeypair::poseidon_hash` in `src/src/keypair.rs`: reject 0
or more than 12 inputs, otherwise build a circom hasher for the input count and
hash the field-reduced inputs, returning the result as a natural number. -/
def ZkKeypair.poseidon_hash (inputs : List Nat) : Except PrivacyCashError Nat :=
  if inputs.length = 0 ∨ inputs.length > 12 then
    .error (.invalidKeypair "Invalid number of inputs. Must be 1-12.")
  else
    let fr_inputs := inputs.map fr_from_biguint
    match Poseidon.new_circom inputs.length with
    | .error _ => .error (.invalidKeypair "Poseidon error")
    | .ok p =>
      match p.hash fr_inputs with
      | (.ok v, _) => .ok v.val
      | (.error _, _) => .error (.invalidKeypair "Poseidon hash error")

/-- Modelled from the spec: the note model (`src/utxo.rs`) is not present under
`src/` (only its callers are). Spec section 4.3: `dummy(owner, asset)` yields a
note of amount 0 with no position, and `is_dummy` distinguishes dummy notes.
Only the fields the withdrawal / deposit assembly inspects are kept: the amount
(a `BigUint`, embedded as `Nat`) and the dummy marker. -/
structure Utxo where
  amount : Nat
  isDummy : Bool
  deriving DecidableEq, Repr

/-- A dummy note: amount 0, marked dummy (spec section 4.3, `Utxo::dummy`). -/
def Utxo.dummyNote : Utxo := ⟨0, true⟩

/-- The comparator `|a, b| b.amount.cmp(&a.amount)` passed to `sort_by` in
`src/src/withdraw.rs` and `src/src/withdraw_spl.rs`: descending by amount. -/
def utxoDescRel (u v : Utxo) : Prop := v.amount ≤ u.amount

instance : DecidableRel utxoDescRel := fun u v => Nat.decLe v.amount u.amount

instance : IsTotal Utxo utxoDescRel := ⟨fun u v => Nat.le_total v.amount u.amount⟩

instance : IsTrans Utxo utxoDescRel := ⟨fun _ _ _ h1 h2 => Nat.le_trans h2 h1⟩

/-- Embedding of `unspent_utxos.sort_by(|a, b| b.amount.cmp(&a.amount))` in
`src/src/withdraw.rs` / `src/src/withdraw_spl.rs`: sort descending by amount. -/
def sortDescByAmount (l : List Utxo) : List Utxo := l.insertionSort utxoDescRel

/-- Embedding of the input selection in `src/src/withdraw.rs` (lines 115-124)
and `src/src/withdraw_spl.rs` (lines 131-139): after the descending sort, the
first input is element 0 and the second is element 1 when more than one note
exists, else a dummy note. -/
def selectedInputs (utxos : List Utxo) : Utxo × Utxo :=
  let sorted := sortDescByAmount utxos
  (sorted.headD Utxo.dummyNote,
   if 1 < sorted.length then sorted.getD 1 Utxo.dummyNote else Utxo.dummyNote)

/-- Total amount of the two selected inputs. -/
def selectedTotal (utxos : List Utxo) : Nat :=
  (selectedInputs utxos).1.amount + (selectedInputs utxos).2.amount

/-- Numeric outcome of a SOL withdrawal, the amount-carrying fields of
`WithdrawResult` in `src/src/withdraw.rs`. -/
structure WithdrawOutcome where
  amountInLamports : Nat
  feeInLamports : Nat
  changeAmount : Nat
  isPartial : Bool
  deriving DecidableEq, Repr

/-- Embedding of the amount logic of `withdraw` in `src/src/withdraw.rs`
(lines 111-157): empty note set and zero selected total are rejected as
no-UTXOs; when the selected total is below the required `amount + fee` the
withdrawal is partial, rejecting totals at or below the fee as insufficient
balance and otherwise capping the amount to `total - fee` (the Rust code reads
the total through `to_u64_digits().first()`, i.e. the low 64-bit digit). The
required threshold `BigUint::from(amount_in_lamports + fee_in_lamports)` at
line 133 is built from a `u64` addition, which wraps on overflow in a release
build (a debug build panics there instead); the wrap is modelled explicitly
as `% 2 ^ 64`. The change `total - amount - fee` is a `BigUint` subtraction
that panics on underflow, reachable exactly when that addition wrapped;
modelled by a distinguished error. -/
def withdrawAssemble (utxos : List Utxo) (amountInLamports fee : Nat) :
    Except PrivacyCashError WithdrawOutcome :=
  if utxos.isEmpty then .error .noUtxosAvailable
  else
    let total := selectedTotal utxos
    if total = 0 then .error .noUtxosAvailable
    else if total < (amountInLamports + fee) % 2 ^ 64 then
      let totalU64 := total % 2 ^ 64
      if totalU64 ≤ fee then .error (.insufficientBalance totalU64 fee)
      else
        let amount := totalU64 - fee
        if amount + fee ≤ total then .ok ⟨amount, fee, total - amount - fee, true⟩
        else .error .bigUintUnderflowPanic
    else
      if amountInLamports + fee ≤ total then
        .ok ⟨amountInLamports, fee, total - amountInLamports - fee, false⟩
      else .error .bigUintUnderflowPanic

/-- Numeric outcome of an SPL withdrawal, the amount-carrying fields of
`WithdrawSplResult` in `src/src/withdraw_spl.rs`. -/
structure WithdrawSplOutcome where
  baseUnits : Nat
  feeBaseUnits : Nat
  changeAmount : Nat
  isPartial : Bool
  deriving DecidableEq, Repr

/-- Embedding of the amount logic of `withdraw_spl` in
`src/src/withdraw_spl.rs` (lines 81-159): the fee is first deducted from the
requested amount (`base_units.saturating_sub(fee)`), a zero result is rejected
as amount-too-low; empty note set and zero selected total are no-UTXOs; when
the selected total is below `base_units + fee` the withdrawal is partial and
the amount becomes `total.to_u64().unwrap_or(0).saturating_sub(fee)` (a total
at or above 2^64 reads as 0); the change `total - base_units - fee` is a
`BigUint` subtraction that panics on underflow, which is reachable here when
the selected total is below the fee, modelled by a distinguished error. -/
def withdrawSplAssemble (utxos : List Utxo) (baseUnitsReq fee : Nat) :
    Except PrivacyCashError WithdrawSplOutcome :=
  let base1 := baseUnitsReq - fee
  if base1 = 0 then .error (.withdrawalAmountTooLow fee)
  else if utxos.isEmpty then .error .noUtxosAvailable
  else
    let total := selectedTotal utxos
    if total = 0 then .error .noUtxosAvailable
    else
      let isP := total < base1 + fee
      let totalU64 := if total < 2 ^ 64 then total else 0
      let base2 := if isP then totalU64 - fee else base1
      if base2 + fee ≤ total then .ok ⟨base2, fee, total - base2 - fee, decide isP⟩
      else .error .bigUintUnderflowPanic

/-- Merkle path origin for an input slot in the deposit assembly: the
deterministic empty-subtree path (`MerkleTree::zero_path()`) or a path fetched
from the indexer (`fetch_merkle_proof`). -/
inductive MerklePathKind where
  | zeroPath
  | fetched
  deriving DecidableEq, Repr

/-- Embedding of the Rust `as i64` cast of a `u64` (wrapping two's complement
reinterpretation), used for `ext_amount` in `src/src/deposit.rs`. -/
def u64_as_i64 (n : Nat) : Int :=
  if n % 2 ^ 64 < 2 ^ 63 then ((n % 2 ^ 64 : Nat) : Int)
  else ((n % 2 ^ 64 : Nat) : Int) - 2 ^ 64

/-- Input / output plan of a SOL deposit, the data built by lines 111-175 of
`src/src/deposit.rs`. -/
structure DepositPlan where
  input1 : Utxo
  input2 : Utxo
  path1 : MerklePathKind
  path2 : MerklePathKind
  feeAmount : Nat
  extAmount : Int
  out0Amount : Nat
  out1Amount : Nat
  deriving DecidableEq, Repr

/-- Embedding of the deposit assembly in `src/src/deposit.rs` (`fee_amount = 0`
from line 68, input and amount construction from lines 111-175): with no
existing notes both inputs are dummies with empty-subtree paths and the active
output carries `amount - fee`; otherwise the first two existing notes in the
supplied order are consumed (the second a dummy if only one exists, whose path
is then the empty-subtree path) and the active output carries their sum plus
`amount - fee`; the placeholder output always carries 0. -/
def depositAssemble (existing : List Utxo) (amountInLamports : Nat) : DepositPlan :=
  let fee := 0
  if existing.isEmpty then
    { input1 := Utxo.dummyNote, input2 := Utxo.dummyNote
    , path1 := .zeroPath, path2 := .zeroPath
    , feeAmount := fee
    , extAmount := u64_as_i64 amountInLamports
    , out0Amount := amountInLamports - fee
    , out1Amount := 0 }
  else
    let first := existing.headD Utxo.dummyNote
    let second := if 1 < existing.length then existing.getD 1 Utxo.dummyNote else Utxo.dummyNote
    { input1 := first, input2 := second
    , path1 := .fetched
    , path2 := if second.isDummy then .zeroPath else .fetched
    , feeAmount := fee
    , extAmount := u64_as_i64 amountInLamports
    , out0Amount := first.amount + second.amount + amountInLamports - fee
    , out1Amount := 0 }

/-- Platform fee wallet, `NOVA_SHIELD_FEE_WALLET` in `src/src/bridge.rs`. -/
def NOVA_SHIELD_FEE_WALLET : String := "HKBrbp3h8B9tMCn4ceKCtmF8jWxvpfrb7YNLbCgxLUJL"

/-- Embedding of `(lamports as f64 * NOVA_SHIELD_FEE_RATE) as u64` in
`src/src/client.rs` line 197. The Rust `f64` product is modelled as the exact
rational product; the `as u64` cast truncates toward zero and saturates
negative values at 0, which `Int.floor` followed by `Int.toNat` reproduces. -/
def novaShieldFee (lamports : Nat) (rate : ℚ) : Nat :=
  (⌊(lamports : ℚ) * rate⌋).toNat

/-- Observable on-chain actions issued by `PrivacyCash::withdraw` in
`src/src/client.rs`, in issue order: the public system-program transfer of the
platform fee, and the private (shielded-pool) withdrawal hand-off. -/
inductive ChainEvent where
  | publicTransfer (wallet : String) (lamports : Nat)
  | privateWithdraw (lamports : Nat)
  deriving DecidableEq, Repr

/-- Embedding of the platform-fee flow of `PrivacyCash::withdraw` in
`src/src/client.rs` (lines 188-243): compute the platform fee; when it is
positive, fail with insufficient balance unless the public balance covers
fee + 5000 lamports (transaction fee), otherwise transfer the fee to the fixed
fee wallet before handing off to the private withdrawal; a zero fee goes
straight to the private withdrawal. -/
def clientWithdraw (lamports : Nat) (rate : ℚ) (publicBalance : Nat) :
    Except PrivacyCashError (List ChainEvent) :=
  let fee := novaShieldFee lamports rate
  if 0 < fee then
    if publicBalance < fee + 5000 then
      .error (.insufficientBalance publicBalance (fee + 5000))
    else
      .ok [.publicTransfer NOVA_SHIELD_FEE_WALLET fee, .privateWithdraw lamports]
  else .ok [.privateWithdraw lamports]

/-! Theorems: each claim of the specification audit is settled below, preceded
by shared helper lemmas. -/

/-- C2: for every signed ext amount and fee small against the BN254 prime,
`calculate_public_amount` is the representative of `(extAmount - fee) mod P` in
`[0, P)`, obtained by adding `P` once when `extAmount - fee` is negative; in
particular it returns `P - 1010` for `extAmount = -1000, fee = 10` and `990`
for `extAmount = 1000, fee = 10`. -/
theorem calculate_public_amount_mod_reduction (e : Int) (f : Nat)
    (h1 : -(FIELD_SIZE : Int) < e - f) (h2 : e - f < (FIELD_SIZE : Int)) :
    ((calculate_public_amount e f : Int)
        = if 0 ≤ e - (f : Int) then e - f else e - f + FIELD_SIZE)
      ∧ calculate_public_amount (-1000) 10 = FIELD_SIZE - 1010
      ∧ calculate_public_amount 1000 10 = 990 := by
  refine ⟨?_, by decide, by decide⟩
  unfold calculate_public_amount
  have hnn : (0 : Int) ≤ (e - f) % (FIELD_SIZE : Int) := Int.emod_nonneg _ (by decide)
  rw [Int.toNat_of_nonneg hnn]
  rcases le_or_lt 0 (e - (f : Int)) with h | h
  · rw [if_pos h]
    exact Int.emod_eq_of_lt h h2
  · rw [if_neg (not_le.mpr h)]
    have h3 := Int.add_mul_emod_self_left (a := e - (f : Int)) (b := (FIELD_SIZE : Int)) (c := 1)
    rw [mul_one] at h3
    rw [← h3]
    exact Int.emod_eq_of_lt (by omega) (by omega)

/-- C2 witness: the theorem instantiated at `extAmount = -1000`, `fee = 10`. -/
theorem calculate_public_amount_mod_reduction_witness :
    calculate_public_amount (-1000) 10 = FIELD_SIZE - 1010 :=
  (calculate_public_amount_mod_reduction (-1000) 10 (by decide) (by decide)).2.1

/-- C4 counterexample: the string `ff` is not a well-formed decimal number,
yet `parse_public_signals_to_bytes` succeeds on it through the hexadecimal
fallback instead of returning a codec error. -/
theorem parse_public_signals_decimal_only_cex :
    parse_bytes_10 "ff" = none
      ∧ (parse_public_signals_to_bytes ["ff"]).isOk = true := by
  constructor
  · decide
  · decide

/-- C4 amended: for every public-signal sequence containing a string that is
neither a well-formed decimal number nor a well-formed hexadecimal number,
`parse_public_signals_to_bytes` returns a hard codec error rather than
producing a byte array. -/
theorem parse_public_signals_codec_error_amended (signals : List String)
    (s : String) (hs : s ∈ signals)
    (h10 : parse_bytes_10 s = none) (h16 : parse_bytes_16 s = none) :
    ∃ msg, parse_public_signals_to_bytes signals = .error (.serializationError msg) := by
  induction signals with
  | nil => cases hs
  | cons a tl ih =>
    rcases List.mem_cons.mp hs with rfl | htl
    · refine ⟨s, ?_⟩
      simp [parse_public_signals_to_bytes, parse_signal, h10, h16]
    · rcases hA1 : parse_bytes_10 a with _ | n
      · rcases hA2 : parse_bytes_16 a with _ | m
        · exact ⟨a, by simp [parse_public_signals_to_bytes, parse_signal, hA1, hA2]⟩
        · rcases ih htl with ⟨msg, hmsg⟩
          exact ⟨msg, by simp [parse_public_signals_to_bytes, parse_signal, hA1, hA2, hmsg]⟩
      · rcases ih htl with ⟨msg, hmsg⟩
        exact ⟨msg, by simp [parse_public_signals_to_bytes, parse_signal, hA1, hmsg]⟩

/-- C4 amended witness: the theorem instantiated at the single-signal sequence
containing `zz`, which neither parse accepts. -/
theorem parse_public_signals_codec_error_amended_witness :
    ∃ msg, parse_public_signals_to_bytes ["zz"] = .error (.serializationError msg) :=
  parse_public_signals_codec_error_amended ["zz"] "zz" (by decide) (by decide) (by decide)

/-- Fidelity of the numeric-string parse model: like num-bigint's
`from_str_radix`, the model accepts a single leading plus sign and skips
embedded underscore separators, and rejects a leading underscore, a bare plus
and a doubled plus. -/
theorem parse_bytes_plus_and_sep :
    parse_bytes_10 "1_2" = some 12 ∧ parse_bytes_10 "+5" = some 5
      ∧ parse_bytes_10 "_1" = none ∧ parse_bytes_10 "+" = none
      ∧ parse_bytes_10 "++5" = none ∧ parse_bytes_16 "+a_b" = some 171 := by
  decide

/-- C3: on a well-formed proof, `parse_proof_to_bytes` applies the
decimal-to-big-integer, little-endian-32-byte, reverse-to-big-endian
conversion (`spec_decimal_to_be_bytes`) independently to each of the four
extension-field sub-coordinates of the B point, concatenating them in the
prover-supplied `(c1, c0)` order for the x and then the y coordinate without
swapping, and applies the same per-coordinate conversion independently to both
coordinates of the base-curve points A and C. -/
theorem parse_proof_to_bytes_coordinatewise
    (a0 a1 xc1 xc0 yc1 yc0 c0 c1 : String)
    (na0 na1 nx1 nx0 ny1 ny0 nc0 nc1 : Nat)
    (aRest cRest : List String) (bRest : List (List String))
    (ha0 : parse_bytes_10 a0 = some na0) (ha1 : parse_bytes_10 a1 = some na1)
    (hx1 : parse_bytes_10 xc1 = some nx1) (hx0 : parse_bytes_10 xc0 = some nx0)
    (hy1 : parse_bytes_10 yc1 = some ny1) (hy0 : parse_bytes_10 yc0 = some ny0)
    (hc0 : parse_bytes_10 c0 = some nc0) (hc1 : parse_bytes_10 c1 = some nc1) :
    parse_proof_to_bytes
        { pi_a := a0 :: a1 :: aRest
        , pi_b := [xc1, xc0] :: [yc1, yc0] :: bRest
        , pi_c := c0 :: c1 :: cRest }
      = .ok { proof_a := spec_decimal_to_be_bytes na0 ++ spec_decimal_to_be_bytes na1
            , proof_b := spec_decimal_to_be_bytes nx1 ++ spec_decimal_to_be_bytes nx0
                ++ (spec_decimal_to_be_bytes ny1 ++ spec_decimal_to_be_bytes ny0)
            , proof_c := spec_decimal_to_be_bytes nc0 ++ spec_decimal_to_be_bytes nc1 } := by
  simp [parse_proof_to_bytes, parse_coords_concat, parse_coord_be,
    spec_decimal_to_be_bytes, ha0, ha1, hx1, hx0, hy1, hy0, hc0, hc1]

/-- C3 witness: the theorem instantiated at a concrete well-formed proof. -/
theorem parse_proof_to_bytes_coordinatewise_witness :
    parse_proof_to_bytes
        { pi_a := ["1", "2"]
        , pi_b := [["3", "4"], ["5", "6"], ["1", "0"]]
        , pi_c := ["7", "8"] }
      = .ok { proof_a := spec_decimal_to_be_bytes 1 ++ spec_decimal_to_be_bytes 2
            , proof_b := spec_decimal_to_be_bytes 3 ++ spec_decimal_to_be_bytes 4
                ++ (spec_decimal_to_be_bytes 5 ++ spec_decimal_to_be_bytes 6)
            , proof_c := spec_decimal_to_be_bytes 7 ++ spec_decimal_to_be_bytes 8 } :=
  parse_proof_to_bytes_coordinatewise "1" "2" "3" "4" "5" "6" "7" "8"
    1 2 3 4 5 6 7 8 [] [] [["1", "0"]]
    (by decide) (by decide) (by decide) (by decide)
    (by decide) (by decide) (by decide) (by decide)

/-- Helper: a fold of rounds over any round function that preserves the
parameters preserves the parameters. -/
theorem Poseidon.params_foldl (f : Poseidon → Nat → Poseidon)
    (hf : ∀ q r, (f q r).params = q.params) (l : List Nat) (p : Poseidon) :
    (l.foldl f p).params = p.params := by
  induction l generalizing p with
  | nil => rfl
  | cons a t ih => rw [List.foldl_cons, ih, hf]

/-- Helper: a fold of rounds over any round function that preserves the domain
tag preserves the domain tag. -/
theorem Poseidon.domain_tag_foldl (f : Poseidon → Nat → Poseidon)
    (hf : ∀ q r, (f q r).domain_tag = q.domain_tag) (l : List Nat) (p : Poseidon) :
    (l.foldl f p).domain_tag = p.domain_tag := by
  induction l generalizing p with
  | nil => rfl
  | cons a t ih => rw [List.foldl_cons, ih, hf]

/-- Helper: a full sponge round keeps the parameters and the domain tag. -/
theorem Poseidon.fullRound_preserves (p : Poseidon) (r : Nat) :
    (p.fullRound r).params = p.params ∧ (p.fullRound r).domain_tag = p.domain_tag :=
  ⟨rfl, rfl⟩

/-- Helper: an inner sponge round keeps the parameters and the domain tag. -/
theorem Poseidon.innerRound_preserves (p : Poseidon) (r : Nat) :
    (p.innerRound r).params = p.params ∧ (p.innerRound r).domain_tag = p.domain_tag :=
  ⟨rfl, rfl⟩

/-- Helper: on a wrong input count `Poseidon.hash` returns the hasher
unchanged, and on a success it returns the hasher with a cleared state and
untouched parameters and domain tag. -/
theorem Poseidon.hash_snd_cases (p : Poseidon) (inputs : List Fr) :
    (((p.hash inputs).1.isOk = false ∧ (p.hash inputs).2 = p)
      ∨ ((p.hash inputs).1.isOk = true ∧ (p.hash inputs).2.state = []
          ∧ (p.hash inputs).2.params = p.params
          ∧ (p.hash inputs).2.domain_tag = p.domain_tag)) := by
  unfold Poseidon.hash
  by_cases h : inputs.length ≠ p.params.width - 1
  · left
    rw [if_pos h]
    exact ⟨rfl, rfl⟩
  · right
    rw [if_neg h]
    refine ⟨rfl, rfl, ?_, ?_⟩
    · rw [Poseidon.params_foldl
          (fun q k => q.fullRound (p.params.fullRounds / 2 + p.params.innerRounds + k))
          (fun q r => rfl),
        Poseidon.params_foldl
          (fun q k => q.innerRound (p.params.fullRounds / 2 + k)) (fun q r => rfl),
        Poseidon.params_foldl (fun q r => q.fullRound r) (fun q r => rfl)]
    · rw [Poseidon.domain_tag_foldl
          (fun q k => q.fullRound (p.params.fullRounds / 2 + p.params.innerRounds + k))
          (fun q r => rfl),
        Poseidon.domain_tag_foldl
          (fun q k => q.innerRound (p.params.fullRounds / 2 + k)) (fun q r => rfl),
        Poseidon.domain_tag_foldl (fun q r => q.fullRound r) (fun q r => rfl)]

/-- C10: the Poseidon sponge state is empty at construction and after every
successful hash call (the state is cleared once the output is read), is left
unchanged when `hash` rejects a wrong input count, and consequently repeated
hash calls on the same hasher with equal inputs return equal results. -/
theorem poseidon_state_discipline (n : Nat) (h : Poseidon) (xs : List Fr) :
    (∀ p, Poseidon.new_circom n = .ok p → p.state = [])
      ∧ (∀ r h2, h.hash xs = (.ok r, h2) → h2.state = [])
      ∧ (∀ e h2, h.hash xs = (.error e, h2) → h2 = h)
      ∧ (h.state = [] → ((h.hash xs).2.hash xs).1 = (h.hash xs).1) := by
  refine ⟨?_, ?_, ?_, ?_⟩
  · intro p hp
    simp only [Poseidon.new_circom, Poseidon.with_domain_tag_circom] at hp
    by_cases hw : n + 1 > MAX_X5_LEN
    · rw [if_pos hw] at hp
      cases hp
    · rw [if_neg hw] at hp
      rcases hg : get_poseidon_parameters (n + 1) with e | params
      · rw [hg] at hp
        cases hp
      · rw [hg] at hp
        cases hp
        rfl
  · intro r h2 hh
    rcases Poseidon.hash_snd_cases h xs with ⟨h1, _⟩ | ⟨_, hst, _, _⟩
    · rw [hh] at h1
      simp [Except.isOk, Except.toBool] at h1
    · rw [hh] at hst
      exact hst
  · intro e h2 hh
    rcases Poseidon.hash_snd_cases h xs with ⟨_, heq⟩ | ⟨h1, _, _, _⟩
    · rw [hh] at heq
      exact heq
    · rw [hh] at h1
      simp [Except.isOk, Except.toBool] at h1
  · intro hst
    have hfix : (h.hash xs).2 = h := by
      rcases Poseidon.hash_snd_cases h xs with ⟨_, heq⟩ | ⟨_, hst2, hparams, hdt⟩
      · exact heq
      · rcases hq : (h.hash xs).2 with ⟨qp, qd, qs⟩
        rcases h with ⟨pp, pd, ps⟩
        rw [hq] at hst2 hparams hdt
        simp only at hst2 hparams hdt
        simp only at hst
        rw [hst2, hparams, hdt, hst]
    rw [hfix]

/-- Helper: for 1 to 12 inputs, `Poseidon.new_circom` succeeds with the
width-(n+1) parameter set and an empty starting state. -/
theorem Poseidon.new_circom_ok_spec (n : Nat) (h1 : 1 ≤ n) (h2 : n ≤ 12) :
    ∃ p, Poseidon.new_circom n = .ok p ∧ p.params.width = n + 1 ∧ p.state = [] := by
  have hw : ¬ (n + 1 > MAX_X5_LEN) := by
    simp only [MAX_X5_LEN]
    omega
  have hc : 2 ≤ n + 1 ∧ n + 1 ≤ MAX_X5_LEN := by
    simp only [MAX_X5_LEN]
    omega
  simp only [Poseidon.new_circom, Poseidon.with_domain_tag_circom, get_poseidon_parameters]
  rw [if_neg hw, if_pos hc]
  exact ⟨_, rfl, rfl, rfl⟩

/-- Helper: `Poseidon.hash` yields a value exactly when the input count
matches the sponge width minus one. -/
theorem Poseidon.hash_fst_isOk_iff (p : Poseidon) (inputs : List Fr) :
    ((p.hash inputs).1.isOk = true) ↔ inputs.length = p.params.width - 1 := by
  unfold Poseidon.hash
  by_cases h : inputs.length ≠ p.params.width - 1
  · rw [if_pos h]
    simpa [Except.isOk, Except.toBool] using h
  · rw [if_neg h]
    push_neg at h
    simp [Except.isOk, Except.toBool, h]

/-- C5: `ZkKeypair::poseidon_hash` produces a hash value exactly when the
input count is between 1 and 12 (it returns an error, never a panic, on 0 or
more than 12 inputs), and for every count in that range the circom hasher it
builds carries the width-(count + 1) parameter set. -/
theorem zk_poseidon_hash_arity (inputs : List Nat) (n : Nat) :
    ((ZkKeypair.poseidon_hash inputs).isOk = true
        ↔ (1 ≤ inputs.length ∧ inputs.length ≤ 12))
      ∧ (1 ≤ n → n ≤ 12 →
          ∃ p, Poseidon.new_circom n = .ok p ∧ p.params.width = n + 1) := by
  constructor
  · unfold ZkKeypair.poseidon_hash
    by_cases hbad : inputs.length = 0 ∨ inputs.length > 12
    · rw [if_pos hbad]
      simp only [Except.isOk]
      constructor
      · intro hfalse
        cases hfalse
      · intro hgood
        omega
    · rw [if_neg hbad]
      push_neg at hbad
      obtain ⟨p, hp, hw, _⟩ := Poseidon.new_circom_ok_spec inputs.length
        (by omega) (by omega)
      rw [hp]
      have hlen : (inputs.map fr_from_biguint).length = p.params.width - 1 := by
        simp [hw]
      have hOk := (Poseidon.hash_fst_isOk_iff p (inputs.map fr_from_biguint)).mpr hlen
      rcases hh : p.hash (inputs.map fr_from_biguint) with ⟨res, q⟩
      rcases res with e | v
      · rw [hh] at hOk
        simp [Except.isOk, Except.toBool] at hOk
      · simp only [hh]
        simp only [Except.isOk, Except.toBool]
        constructor
        · intro _
          omega
        · intro _
          trivial
  · intro h1 h2
    obtain ⟨p, hp, hw, _⟩ := Poseidon.new_circom_ok_spec n h1 h2
    exact ⟨p, hp, hw⟩

/-- C10 witness: the state discipline applied to a concrete hasher with an
empty state, giving equal results on a repeated call. -/
theorem poseidon_state_discipline_witness :
    (((⟨⟨[], [], 0, 0, 1, 5⟩, 0, []⟩ : Poseidon).hash []).2.hash []).1
      = ((⟨⟨[], [], 0, 0, 1, 5⟩, 0, []⟩ : Poseidon).hash []).1 :=
  (poseidon_state_discipline 1 ⟨⟨[], [], 0, 0, 1, 5⟩, 0, []⟩ []).2.2.2 rfl

/-- C5 witness: the arity law applied at the single input `[5]` and at count
3, whose hasher carries width 4. -/
theorem zk_poseidon_hash_arity_witness :
    (ZkKeypair.poseidon_hash [5]).isOk = true
      ∧ ∃ p, Poseidon.new_circom 3 = .ok p ∧ p.params.width = 3 + 1 :=
  ⟨(zk_poseidon_hash_arity [5] 3).1.mpr ⟨by decide, by decide⟩,
   (zk_poseidon_hash_arity [5] 3).2 (by decide) (by decide)⟩

/-- Helper: an empty note list selects two dummy inputs of total 0. -/
theorem selectedTotal_of_isEmpty (utxos : List Utxo) (h : utxos.isEmpty = true) :
    selectedTotal utxos = 0 := by
  cases utxos with
  | nil => rfl
  | cons a t => simp [List.isEmpty] at h

/-- Helper: a zero selected total is always rejected as no-UTXOs, whatever
the requested amount and fee. -/
theorem withdrawAssemble_noUtxos (utxos : List Utxo) (R F : Nat)
    (h : selectedTotal utxos = 0) :
    withdrawAssemble utxos R F = .error .noUtxosAvailable := by
  unfold withdrawAssemble
  by_cases he : utxos.isEmpty
  · simp only [he, if_true]
  · simp only [he, if_false, Bool.false_eq_true]
    simp [h]

/-- Helper: closed-form case analysis of the SOL withdrawal assembly when the
selected total fits in a `u64` and the `u64` sum of the requested amount and
the fee does not overflow. -/
theorem withdrawAssemble_eq (utxos : List Utxo) (R F : Nat)
    (hT : selectedTotal utxos < 2 ^ 64) (hRF : R + F < 2 ^ 64) :
    withdrawAssemble utxos R F =
      (if utxos.isEmpty then .error .noUtxosAvailable
       else if selectedTotal utxos = 0 then .error .noUtxosAvailable
       else if selectedTotal utxos < R + F then
         (if selectedTotal utxos ≤ F then
            .error (.insufficientBalance (selectedTotal utxos) F)
          else .ok ⟨selectedTotal utxos - F, F, 0, true⟩)
       else .ok ⟨R, F, selectedTotal utxos - R - F, false⟩) := by
  unfold withdrawAssemble
  by_cases he : utxos.isEmpty
  · simp only [he, if_true]
  · simp only [he, if_false, Bool.false_eq_true]
    by_cases h0 : selectedTotal utxos = 0
    · simp only [h0, if_pos rfl]
      simp
    · simp only [if_neg h0]
      rw [Nat.mod_eq_of_lt hRF]
      by_cases hpart : selectedTotal utxos < R + F
      · simp only [if_pos hpart]
        rw [Nat.mod_eq_of_lt hT]
        by_cases hfee : selectedTotal utxos ≤ F
        · simp only [if_pos hfee]
        · simp only [if_neg hfee]
          have hg : selectedTotal utxos - F + F ≤ selectedTotal utxos := by omega
          simp only [if_pos hg]
          have hc : selectedTotal utxos - (selectedTotal utxos - F) - F = 0 := by omega
          rw [hc]
      · simp only [if_neg hpart]
        have hg : R + F ≤ selectedTotal utxos := by omega
        simp only [if_pos hg]

/-- Helper: closed-form case analysis of the SOL withdrawal assembly when the
`u64` sum of the requested amount and the fee overflows: the release build
wraps the required threshold to `R + F - 2 ^ 64`, so a positive total below it
reads as insufficient balance and anything else aborts on the `BigUint` change
subtraction. -/
theorem withdrawAssemble_overflow_eq (utxos : List Utxo) (R F : Nat)
    (hT : selectedTotal utxos < 2 ^ 64) (hR64 : R < 2 ^ 64) (hF64 : F < 2 ^ 64)
    (hover : 2 ^ 64 ≤ R + F) :
    withdrawAssemble utxos R F =
      (if utxos.isEmpty then .error .noUtxosAvailable
       else if selectedTotal utxos = 0 then .error .noUtxosAvailable
       else if selectedTotal utxos < R + F - 2 ^ 64 then
         .error (.insufficientBalance (selectedTotal utxos) F)
       else .error .bigUintUnderflowPanic) := by
  unfold withdrawAssemble
  by_cases he : utxos.isEmpty
  · simp only [he, if_true]
  · simp only [he, if_false, Bool.false_eq_true]
    by_cases h0 : selectedTotal utxos = 0
    · simp only [h0, if_pos rfl]
      simp
    · simp only [if_neg h0]
      have hmod : (R + F) % 2 ^ 64 = R + F - 2 ^ 64 := by omega
      rw [hmod]
      by_cases hpart : selectedTotal utxos < R + F - 2 ^ 64
      · simp only [if_pos hpart]
        rw [Nat.mod_eq_of_lt hT]
        have hfee : selectedTotal utxos ≤ F := by omega
        simp only [if_pos hfee]
      · simp only [if_neg hpart]
        have hg : ¬ (R + F ≤ selectedTotal utxos) := by omega
        simp only [if_neg hg]

/-- Helper: closed-form case analysis of the SPL withdrawal assembly when the
selected total fits in a `u64`. -/
theorem withdrawSplAssemble_eq (utxos : List Utxo) (R F : Nat)
    (hT : selectedTotal utxos < 2 ^ 64) :
    withdrawSplAssemble utxos R F =
      (if R - F = 0 then .error (.withdrawalAmountTooLow F)
       else if utxos.isEmpty then .error .noUtxosAvailable
       else if selectedTotal utxos = 0 then .error .noUtxosAvailable
       else if selectedTotal utxos < R then
         (if selectedTotal utxos < F then .error .bigUintUnderflowPanic
          else .ok ⟨selectedTotal utxos - F, F, 0, true⟩)
       else .ok ⟨R - F, F, selectedTotal utxos - R, false⟩) := by
  unfold withdrawSplAssemble
  by_cases hb : R - F = 0
  · simp only [hb, if_pos rfl]
    simp
  · simp only [if_neg hb]
    by_cases he : utxos.isEmpty
    · simp only [he, if_true]
    · simp only [he, if_false, Bool.false_eq_true]
      by_cases h0 : selectedTotal utxos = 0
      · simp only [h0, if_pos rfl]
        simp
      · simp only [if_neg h0]
        rw [if_pos hT]
        have hreq : R - F + F = R := by omega
        rw [hreq]
        by_cases hp : selectedTotal utxos < R
        · simp only [if_pos hp, decide_eq_true hp]
          by_cases hf : selectedTotal utxos < F
          · have hng : ¬ (selectedTotal utxos - F + F ≤ selectedTotal utxos) := by omega
            simp only [if_neg hng, if_pos hf]
          · have hg : selectedTotal utxos - F + F ≤ selectedTotal utxos := by omega
            simp only [if_pos hg, if_neg hf]
            have hc : selectedTotal utxos - (selectedTotal utxos - F) - F = 0 := by omega
            rw [hc]
        · simp only [if_neg hp, decide_eq_false hp]
          have hg : R - F + F ≤ selectedTotal utxos := by omega
          simp only [if_pos hg]
          have hc : selectedTotal utxos - (R - F) - F = selectedTotal utxos - R := by omega
          rw [hc]

/-- C1 counterexample: an SPL withdrawal with a single 2000-unit note,
requested amount 1000 and fee 100 satisfies the claim's full-withdrawal
condition T >= R + F, yet the assembled withdrawal pays out 900 (the request
minus the fee) with change 1000, not the claimed 1000 with change 900. -/
theorem withdraw_fee_law_cex :
    withdrawSplAssemble [⟨2000, false⟩] 1000 100
        = .ok ⟨900, 100, 1000, false⟩
      ∧ withdrawSplAssemble [⟨2000, false⟩] 1000 100
          ≠ .ok ⟨1000, 100, 900, false⟩ := by
  have h1 : withdrawSplAssemble [⟨2000, false⟩] 1000 100
      = .ok ⟨900, 100, 1000, false⟩ := by rfl
  refine ⟨h1, ?_⟩
  rw [h1]
  simp

/-- C1 amended: for u64 requests and fees whose sum does not overflow, the
claimed fee / partial-withdrawal law holds for the SOL path (with a zero
selected total rejected as no-UTXOs); when the u64 sum R + F overflows, the
release build wraps the required threshold to R + F - 2 ^ 64 and the SOL
operation never succeeds: a positive total below the wrapped threshold is
rejected as insufficient balance and anything else aborts on the BigUint
change subtraction. The SPL path first deducts the fee from the requested
amount, rejecting requests at or below the fee as amount-too-low, and for an
effective request R - F it withdraws R - F with change T - R when T >= R,
withdraws T - F with zero change flagged partial when F <= T < R, and aborts
on a BigUint underflow (not an insufficient-balance error) when 0 < T < F. -/
theorem withdraw_fee_law_amended (utxos : List Utxo) (R F : Nat)
    (hR : 0 < R) (hT : selectedTotal utxos < 2 ^ 64)
    (hR64 : R < 2 ^ 64) (hF64 : F < 2 ^ 64) :
    (R + F ≤ selectedTotal utxos →
        withdrawAssemble utxos R F
          = .ok ⟨R, F, selectedTotal utxos - R - F, false⟩)
      ∧ (R + F < 2 ^ 64 → F < selectedTotal utxos → selectedTotal utxos < R + F →
          withdrawAssemble utxos R F
            = .ok ⟨selectedTotal utxos - F, F, 0, true⟩)
      ∧ (R + F < 2 ^ 64 → 0 < selectedTotal utxos → selectedTotal utxos ≤ F →
          withdrawAssemble utxos R F
            = .error (.insufficientBalance (selectedTotal utxos) F))
      ∧ (selectedTotal utxos = 0 →
          withdrawAssemble utxos R F = .error .noUtxosAvailable)
      ∧ (2 ^ 64 ≤ R + F → 0 < selectedTotal utxos →
          selectedTotal utxos < R + F - 2 ^ 64 →
          withdrawAssemble utxos R F
            = .error (.insufficientBalance (selectedTotal utxos) F))
      ∧ (2 ^ 64 ≤ R + F → 0 < selectedTotal utxos →
          R + F - 2 ^ 64 ≤ selectedTotal utxos →
          withdrawAssemble utxos R F = .error .bigUintUnderflowPanic)
      ∧ (F < R → R ≤ selectedTotal utxos →
          withdrawSplAssemble utxos R F
            = .ok ⟨R - F, F, selectedTotal utxos - R, false⟩)
      ∧ (F < R → 0 < selectedTotal utxos → F ≤ selectedTotal utxos →
          selectedTotal utxos < R →
          withdrawSplAssemble utxos R F
            = .ok ⟨selectedTotal utxos - F, F, 0, true⟩)
      ∧ (R ≤ F → withdrawSplAssemble utxos R F
            = .error (.withdrawalAmountTooLow F))
      ∧ (F < R → 0 < selectedTotal utxos → selectedTotal utxos < F →
          withdrawSplAssemble utxos R F = .error .bigUintUnderflowPanic) := by
  have hempty := selectedTotal_of_isEmpty utxos
  refine ⟨?_, ?_, ?_, ?_, ?_, ?_, ?_, ?_, ?_, ?_⟩
  · intro h1
    rw [withdrawAssemble_eq utxos R F hT (by omega)]
    split_ifs
    all_goals first
      | rfl
      | (exfalso
         try have h0 := hempty (by assumption)
         omega)
  · intro hRF h1 h2
    rw [withdrawAssemble_eq utxos R F hT hRF]
    split_ifs
    all_goals first
      | rfl
      | (exfalso
         try have h0 := hempty (by assumption)
         omega)
  · intro hRF h1 h2
    rw [withdrawAssemble_eq utxos R F hT hRF]
    split_ifs
    all_goals first
      | rfl
      | (exfalso
         try have h0 := hempty (by assumption)
         omega)
  · intro h1
    exact withdrawAssemble_noUtxos utxos R F h1
  · intro hover h1 h2
    rw [withdrawAssemble_overflow_eq utxos R F hT hR64 hF64 hover]
    split_ifs
    all_goals first
      | rfl
      | (exfalso
         try have h0 := hempty (by assumption)
         omega)
  · intro hover h1 h2
    rw [withdrawAssemble_overflow_eq utxos R F hT hR64 hF64 hover]
    split_ifs
    all_goals first
      | rfl
      | (exfalso
         try have h0 := hempty (by assumption)
         omega)
  all_goals
    (intros
     rw [withdrawSplAssemble_eq utxos R F hT]
     split_ifs
     all_goals first
       | rfl
       | (exfalso
          try have h0 := hempty (by assumption)
          omega))

/-- C1 amended witness: the SOL full-withdrawal case at a concrete input. -/
theorem withdraw_fee_law_amended_witness :
    withdrawAssemble [⟨2000, false⟩] 1000 100 = .ok ⟨1000, 100, 900, false⟩ := by
  have h := (withdraw_fee_law_amended [⟨2000, false⟩] 1000 100
    (by decide) (by decide) (by decide) (by decide)).1 (by decide)
  simpa using h

/-- C8: a partial SOL withdrawal is surfaced as a success whose `isPartial`
flag is true exactly when the requested amount was capped (the selected total
is below request + fee, and the paid amount is then total - fee); the
zero-notes case is rejected with the distinct no-UTXOs error, while (for a
non-overflowing u64 request-plus-fee sum) a positive total at or below the
fee is rejected with the insufficient-balance error, two different error
constructors. -/
theorem withdraw_partial_flag_taxonomy (utxos : List Utxo) (R F : Nat)
    (hR : 0 < R) (hT : selectedTotal utxos < 2 ^ 64)
    (hR64 : R < 2 ^ 64) (hF64 : F < 2 ^ 64) :
    (utxos = [] → withdrawAssemble utxos R F = .error .noUtxosAvailable)
      ∧ (∀ o, withdrawAssemble utxos R F = .ok o →
          (o.isPartial = true ↔ selectedTotal utxos < R + F))
      ∧ (∀ o, withdrawAssemble utxos R F = .ok o → o.isPartial = true →
          o.amountInLamports = selectedTotal utxos - F ∧ o.changeAmount = 0)
      ∧ (R + F < 2 ^ 64 → F < selectedTotal utxos → selectedTotal utxos < R + F →
          (withdrawAssemble utxos R F).isOk = true)
      ∧ (R + F < 2 ^ 64 → 0 < selectedTotal utxos → selectedTotal utxos ≤ F →
          withdrawAssemble utxos R F
            = .error (.insufficientBalance (selectedTotal utxos) F))
      ∧ (∀ a b, PrivacyCashError.noUtxosAvailable ≠ .insufficientBalance a b) := by
  have hempty := selectedTotal_of_isEmpty utxos
  refine ⟨?_, ?_, ?_, ?_, ?_, ?_⟩
  · intro h
    subst h
    exact withdrawAssemble_noUtxos [] R F rfl
  · intro o ho
    by_cases hRF : R + F < 2 ^ 64
    · rw [withdrawAssemble_eq utxos R F hT hRF] at ho
      split_ifs at ho with e1 e2 e3
      all_goals
        (injection ho with ho2
         subst ho2)
      all_goals simpa using e3
    · rw [withdrawAssemble_overflow_eq utxos R F hT hR64 hF64 (by omega)] at ho
      split_ifs at ho
  · intro o ho hflag
    by_cases hRF : R + F < 2 ^ 64
    · rw [withdrawAssemble_eq utxos R F hT hRF] at ho
      split_ifs at ho with e1 e2 e3
      all_goals
        (injection ho with ho2
         subst ho2)
      all_goals try exact ⟨rfl, rfl⟩
      all_goals simp at hflag
    · rw [withdrawAssemble_overflow_eq utxos R F hT hR64 hF64 (by omega)] at ho
      split_ifs at ho
  · intro hRF h1 h2
    rw [withdrawAssemble_eq utxos R F hT hRF]
    split_ifs with e1 e2 e3
    all_goals first
      | rfl
      | (exfalso
         try have h0 := hempty (by assumption)
         omega)
  · intro hRF h1 h2
    rw [withdrawAssemble_eq utxos R F hT hRF]
    split_ifs with e1 e2 e3
    all_goals first
      | rfl
      | (exfalso
         try have h0 := hempty (by assumption)
         omega)
  · intro a b hcon
    exact PrivacyCashError.noConfusion hcon

/-- C8 witness: the flag and taxonomy law applied at a concrete partial
withdrawal and at a concrete fee-exceeds-balance failure. -/
theorem withdraw_partial_flag_taxonomy_witness :
    (withdrawAssemble [⟨1000, false⟩] 1000 100).isOk = true
      ∧ withdrawAssemble [⟨50, false⟩] 1000 100
          = .error (.insufficientBalance 50 100) := by
  constructor
  · exact (withdraw_partial_flag_taxonomy [⟨1000, false⟩] 1000 100
      (by decide) (by decide) (by decide) (by decide)).2.2.2.1
      (by decide) (by decide) (by decide)
  · have h := (withdraw_partial_flag_taxonomy [⟨50, false⟩] 1000 100
      (by decide) (by decide) (by decide) (by decide)).2.2.2.2.1
      (by decide) (by decide) (by decide)
    have h2 : selectedTotal [⟨50, false⟩] = 50 := by decide
    rw [h2] at h
    exact h

/-- Helper: the descending sort is a permutation of its input. -/
theorem sortDescByAmount_perm (l : List Utxo) :
    List.Perm (sortDescByAmount l) l :=
  List.perm_insertionSort utxoDescRel l

/-- Helper: the descending sort is sorted for the descending comparator. -/
theorem sortDescByAmount_sorted (l : List Utxo) :
    (sortDescByAmount l).Sorted utxoDescRel :=
  List.sorted_insertionSort utxoDescRel l

/-- C6: for a withdrawal over a non-empty note set, the two selected inputs
are the two largest-amount notes: the first is a note of the set of maximal
amount, and with at least two notes the pair heads the descending sort of the
set (every remaining note has amount at most the second input's); with exactly
one note the second input is the zero-amount dummy note. -/
theorem selectedInputs_two_largest (utxos : List Utxo) (h : utxos ≠ []) :
    ((selectedInputs utxos).1 ∈ utxos
        ∧ ∀ u ∈ utxos, u.amount ≤ (selectedInputs utxos).1.amount)
      ∧ (utxos.length = 1 → (selectedInputs utxos).2 = Utxo.dummyNote)
      ∧ (1 < utxos.length →
          ∃ rest, sortDescByAmount utxos
              = (selectedInputs utxos).1 :: (selectedInputs utxos).2 :: rest
            ∧ List.Perm
                ((selectedInputs utxos).1 :: (selectedInputs utxos).2 :: rest) utxos
            ∧ ∀ u ∈ rest, u.amount ≤ (selectedInputs utxos).2.amount) := by
  have hperm : List.Perm (sortDescByAmount utxos) utxos := sortDescByAmount_perm utxos
  have hsort : (sortDescByAmount utxos).Sorted utxoDescRel := sortDescByAmount_sorted utxos
  have hlen : (sortDescByAmount utxos).length = utxos.length := hperm.length_eq
  rcases hs : sortDescByAmount utxos with _ | ⟨a, t⟩
  · rw [hs] at hlen
    cases utxos with
    | nil => exact absurd rfl h
    | cons u r => simp at hlen
  · rw [hs] at hperm hsort hlen
    have hfst : (selectedInputs utxos).1 = a := by
      simp only [selectedInputs, hs, List.headD_cons]
    constructor
    · constructor
      · rw [hfst]
        exact hperm.mem_iff.mp (List.mem_cons_self a t)
      · intro u hu
        rw [hfst]
        have hu2 : u ∈ a :: t := hperm.mem_iff.mpr hu
        rcases List.mem_cons.mp hu2 with rfl | hu3
        · exact Nat.le_refl _
        · exact (List.pairwise_cons.mp hsort).1 u hu3
    constructor
    · intro h1
      have ht : t = [] := by
        rw [h1] at hlen
        cases t with
        | nil => rfl
        | cons b t2 => simp at hlen
      simp only [selectedInputs, hs, ht]
      simp
    · intro h1
      rcases t with _ | ⟨b, t2⟩
      · rw [← hlen] at h1
        simp at h1
      · have hsnd : (selectedInputs utxos).2 = b := by
          simp only [selectedInputs, hs]
          have : 1 < (a :: b :: t2).length := by simp
          rw [if_pos this]
          rfl
        refine ⟨t2, ?_, ?_, ?_⟩
        · rw [hfst, hsnd]
        · rw [hfst, hsnd]
          exact hperm
        · intro u hu
          rw [hsnd]
          have := List.pairwise_cons.mp hsort
          exact (List.pairwise_cons.mp this.2).1 u hu

/-- C6 witness: the selection law applied to a concrete two-note set. -/
theorem selectedInputs_two_largest_witness :
    (selectedInputs [⟨3, false⟩, ⟨9, false⟩]).1 ∈ [⟨3, false⟩, ⟨9, false⟩] :=
  (selectedInputs_two_largest [⟨3, false⟩, ⟨9, false⟩] (by decide)).1.1

/-- C7: a SOL deposit plan always has fee 0, placeholder output 0 and ext
amount equal to the deposited lamports; with no existing notes both inputs are
dummies with empty-subtree paths and the active output is the deposit minus
the (zero) fee; with existing notes the inputs are the first two notes in the
supplied order (the second a dummy with an empty-subtree path when only one
exists) and the active output is the input sum plus the deposit minus the
(zero) fee. -/
theorem depositAssemble_plan (existing : List Utxo) (amount : Nat)
    (hA : amount < 2 ^ 63) :
    (depositAssemble existing amount).feeAmount = 0
      ∧ (depositAssemble existing amount).out1Amount = 0
      ∧ (depositAssemble existing amount).extAmount = (amount : Int)
      ∧ (existing = [] →
          (depositAssemble existing amount).input1 = Utxo.dummyNote
            ∧ (depositAssemble existing amount).input2 = Utxo.dummyNote
            ∧ (depositAssemble existing amount).path1 = .zeroPath
            ∧ (depositAssemble existing amount).path2 = .zeroPath
            ∧ (depositAssemble existing amount).out0Amount = amount - 0)
      ∧ (∀ u rest, existing = u :: rest →
          (depositAssemble existing amount).input1 = u
            ∧ (depositAssemble existing amount).path1 = .fetched
            ∧ (depositAssemble existing amount).out0Amount
                = u.amount + (depositAssemble existing amount).input2.amount
                    + amount - 0
            ∧ (rest = [] →
                (depositAssemble existing amount).input2 = Utxo.dummyNote
                  ∧ (depositAssemble existing amount).path2 = .zeroPath)
            ∧ (∀ v rest2, rest = v :: rest2 →
                (depositAssemble existing amount).input2 = v)) := by
  have hext : u64_as_i64 amount = (amount : Int) := by
    have hm : amount % 2 ^ 64 = amount := Nat.mod_eq_of_lt (by omega)
    unfold u64_as_i64
    rw [hm, if_pos hA]
  cases existing with
  | nil =>
    refine ⟨rfl, rfl, hext, ?_, ?_⟩
    · intro _
      exact ⟨rfl, rfl, rfl, rfl, rfl⟩
    · intro u rest hcon
      cases hcon
  | cons u rest =>
    cases rest with
    | nil =>
      refine ⟨rfl, rfl, hext, ?_, ?_⟩
      · intro hcon
        cases hcon
      · intro u2 rest2 heq
        injection heq with hu hrest
        subst hu
        subst hrest
        refine ⟨rfl, rfl, rfl, ?_, ?_⟩
        · intro _
          exact ⟨rfl, rfl⟩
        · intro v r3 hcon
          cases hcon
    | cons v r3 =>
      refine ⟨rfl, rfl, hext, ?_, ?_⟩
      · intro hcon
        cases hcon
      · intro u2 rest2 heq
        injection heq with hu hrest
        subst hu
        subst hrest
        refine ⟨rfl, rfl, rfl, ?_, ?_⟩
        · intro hcon
          cases hcon
        · intro v2 r4 heq2
          injection heq2 with hv hr
          subst hv
          simp [depositAssemble]

/-- C7 witness: the plan law applied at a concrete two-note deposit. -/
theorem depositAssemble_plan_witness :
    (depositAssemble [⟨300, false⟩, ⟨200, false⟩] 500).input2 = ⟨200, false⟩ :=
  ((depositAssemble_plan [⟨300, false⟩, ⟨200, false⟩] 500 (by decide)).2.2.2.2
    ⟨300, false⟩ [⟨200, false⟩] rfl).2.2.2.2 ⟨200, false⟩ [] rfl

/-- C9: for a SOL withdrawal through the client, the platform fee is the floor
of the lamports times the fee rate (truncation of the product, saturating at
zero); a positive fee fails with the insufficient-balance error whenever the
public balance is below fee + 5000 lamports, issuing no shielded-pool action;
otherwise the fee is transferred to the fixed fee wallet as a public action
before the private withdrawal; a zero fee goes straight to the private
withdrawal. -/
theorem clientWithdraw_platform_fee (L : Nat) (rate : ℚ) (bal : Nat) :
    (0 ≤ rate → (novaShieldFee L rate : Int) = ⌊(L : ℚ) * rate⌋)
      ∧ (0 < novaShieldFee L rate → bal < novaShieldFee L rate + 5000 →
          clientWithdraw L rate bal
            = .error (.insufficientBalance bal (novaShieldFee L rate + 5000)))
      ∧ (0 < novaShieldFee L rate → novaShieldFee L rate + 5000 ≤ bal →
          clientWithdraw L rate bal
            = .ok [.publicTransfer NOVA_SHIELD_FEE_WALLET (novaShieldFee L rate),
                   .privateWithdraw L])
      ∧ (novaShieldFee L rate = 0 →
          clientWithdraw L rate bal = .ok [.privateWithdraw L]) := by
  refine ⟨?_, ?_, ?_, ?_⟩
  · intro hr
    unfold novaShieldFee
    have hf : (0 : Int) ≤ ⌊(L : ℚ) * rate⌋ := by
      apply Int.floor_nonneg.mpr
      exact mul_nonneg (by positivity) hr
    omega
  · intro h1 h2
    unfold clientWithdraw
    rw [if_pos h1, if_pos h2]
  · intro h1 h2
    unfold clientWithdraw
    rw [if_pos h1, if_neg (by omega : ¬ bal < novaShieldFee L rate + 5000)]
  · intro h1
    unfold clientWithdraw
    rw [if_neg (by omega : ¬ 0 < novaShieldFee L rate)]

/-- C9 witness: withdrawing 200000 lamports at the default 1 percent rate with
a 1000-lamport public balance fails with the insufficient-balance error. -/
theorem clientWithdraw_platform_fee_witness :
    clientWithdraw 200000 (1 / 100) 1000 = .error (.insufficientBalance 1000 7000) := by
  have hfee : novaShieldFee 200000 (1 / 100) = 2000 := by
    unfold novaShieldFee
    norm_num
    decide
  have h := (clientWithdraw_platform_fee 200000 (1 / 100) 1000).2.1
    (by rw [hfee]; decide) (by rw [hfee]; decide)
  rw [hfee] at h
  exact h
